import Mathlib

/-!
Verification development for the `opencode-openai-multi-auth` plugin.

The TypeScript sources are shallowly embedded below:
* a JSON-like value model for the JavaScript values the plugin manipulates;
* the session-binding store (`src/lib/session-bindings.ts`) and the secure
  file writer (`src/lib/secure-file.ts`), with file-system effects embedded
  as explicit operation traces;
* the SSE stream-to-document adapter (`src/lib/request/response-handler.ts`);
* the log sanitizer (`sanitizeLogData`);
* the account-selection / request-dispatch engine (`executeRequest` and
  `getSessionBoundAccount` from `src/index.ts`); collaborators whose
  sources are not part of the repository snapshot (the account manager,
  `fetch-helpers`, `constants`) are modelled from the specification, and
  each such definition says so in its doc comment.
-/

set_option maxHeartbeats 1000000

namespace MultiAuth

mutual
/-- JSON-like runtime value: the JavaScript values the plugin manipulates
(null, booleans, numbers, strings, arrays, plain objects). -/
inductive JsonVal : Type where
  | jnull : JsonVal
  | jbool (b : Bool) : JsonVal
  | jnum (q : ℚ) : JsonVal
  | jstr (s : String) : JsonVal
  | jarr (a : JsonArr) : JsonVal
  | jobj (o : JsonObj) : JsonVal

/-- Array of JSON values, with an explicit spine for mutual recursion. -/
inductive JsonArr : Type where
  | nil : JsonArr
  | cons (hd : JsonVal) (tl : JsonArr) : JsonArr

/-- Object: ordered association list of string keys to JSON values. -/
inductive JsonObj : Type where
  | nil : JsonObj
  | cons (k : String) (v : JsonVal) (tl : JsonObj) : JsonObj
end

mutual
def JsonVal.beq : JsonVal → JsonVal → Bool
  | .jnull, .jnull => true
  | .jbool a, .jbool b => a = b
  | .jnum a, .jnum b => a = b
  | .jstr a, .jstr b => a = b
  | .jarr a, .jarr b => a.beq b
  | .jobj a, .jobj b => a.beq b
  | _, _ => false

def JsonArr.beq : JsonArr → JsonArr → Bool
  | .nil, .nil => true
  | .cons h t, .cons h2 t2 => h.beq h2 && t.beq t2
  | _, _ => false

def JsonObj.beq : JsonObj → JsonObj → Bool
  | .nil, .nil => true
  | .cons k v t, .cons k2 v2 t2 => k = k2 && v.beq v2 && t.beq t2
  | _, _ => false
end

/-- First-match lookup of a key in an object.  Objects built by the
embedding keep keys unique (see `JsonObj.setKey`), mirroring JavaScript
objects. -/
def JsonObj.lookup : JsonObj → String → Option JsonVal
  | .nil, _ => none
  | .cons k v tl, key => if k = key then some v else tl.lookup key

/-- Property assignment `o[k] = v`: replace the value at an existing key in
place, else append — exactly the JavaScript object update discipline, which
also keeps keys unique. -/
def JsonObj.setKey : JsonObj → String → JsonVal → JsonObj
  | .nil, key, v => .cons key v .nil
  | .cons k w tl, key, v =>
      if k = key then .cons k v tl else .cons k w (tl.setKey key v)

def JsonObj.removeKey : JsonObj → String → JsonObj
  | .nil, _ => .nil
  | .cons k v tl, key =>
      if k = key then tl.removeKey key else .cons k v (tl.removeKey key)

def JsonObj.toList : JsonObj → List (String × JsonVal)
  | .nil => []
  | .cons k v tl => (k, v) :: tl.toList

def JsonArr.toList : JsonArr → List JsonVal
  | .nil => []
  | .cons h t => h :: t.toList

/-- JavaScript truthiness of a value. -/
def JsonVal.truthy : JsonVal → Bool
  | .jnull => false
  | .jbool b => b
  | .jnum q => if q = 0 then false else true
  | .jstr s => if s = "" then false else true
  | .jarr _ => true
  | .jobj _ => true

/-- `typeof v === "object"` — true for plain objects, arrays, and `null`
(a well-known JavaScript quirk). -/
def JsonVal.typeofIsObject : JsonVal → Bool
  | .jnull => true
  | .jarr _ => true
  | .jobj _ => true
  | _ => false

/-- Optional-chaining property access `v?.k`: `none` stands for
`undefined` (non-objects and missing keys). -/
def JsonVal.getProp : JsonVal → String → Option JsonVal
  | .jobj o, key => o.lookup key
  | _, _ => none

/-- `Object.entries(v)` for the values that reach it in the sources:
objects list their key/value pairs, arrays list index-string/value pairs. -/
def JsonVal.entries : JsonVal → List (String × JsonVal)
  | .jobj o => o.toList
  | .jarr a => (a.toList.enum.map fun p => (toString p.1, p.2))
  | _ => []

/-- JavaScript `a || b` on values (`none` = `undefined`). -/
def jsOr : Option JsonVal → Option JsonVal → Option JsonVal
  | some v, w => if v.truthy then some v else w
  | none, w => w

/-! ### Character-list string utilities (JavaScript string operations) -/

/-- ASCII lower-casing of one character (the case-insensitive `i` regex
flag and `Headers` name folding only need ASCII here). -/
def lowerAscii (c : Char) : Char :=
  if 'A' ≤ c ∧ c ≤ 'Z' then Char.ofNat (c.toNat + 32) else c

def lowerString (s : String) : String :=
  String.mk (s.data.map lowerAscii)

/-- Whitespace recognised by `String.prototype.trim` (the subset that
occurs in SSE payloads). -/
def isJsWs (c : Char) : Bool :=
  c = ' ' || c = '\t' || c = '\n' || c = '\r'

def trimChars (l : List Char) : List Char :=
  ((l.dropWhile isJsWs).reverse.dropWhile isJsWs).reverse

def jsTrim (s : String) : String :=
  String.mk (trimChars s.data)

/-- Does `pat` occur as a contiguous run somewhere in the list? -/
def containsSubAux (pat : List Char) : List Char → Bool
  | [] => pat.isEmpty
  | c :: rest => pat.isPrefixOf (c :: rest) || containsSubAux pat rest

/-- Case-sensitive substring test, `String.prototype.includes`. -/
def containsSub (hay pat : List Char) : Bool :=
  containsSubAux pat hay

def strIncludes (hay pat : String) : Bool :=
  containsSub hay.data pat.data

/-- `String.prototype.split` with a non-empty separator (keeps empty
fields, as JavaScript does). -/
def splitOnAux (sep : List Char) : Nat → List Char → List Char → List (List Char)
  | 0, acc, _ => [acc.reverse]
  | _ + 1, acc, [] => [acc.reverse]
  | fuel + 1, acc, c :: rest =>
      if sep.isPrefixOf (c :: rest) then
        acc.reverse :: splitOnAux sep fuel [] (List.drop sep.length (c :: rest))
      else
        splitOnAux sep fuel (c :: acc) rest

def jsSplit (s sep : String) : List String :=
  (splitOnAux sep.data (s.data.length + 1) [] s.data).map String.mk

/-- Replace every occurrence of `pat` (a global regex on a literal
pattern, e.g. `/\r\n/g`). -/
def replaceAllAux (pat rep : List Char) : Nat → List Char → List Char
  | 0, l => l
  | _ + 1, [] => []
  | fuel + 1, c :: rest =>
      if pat ≠ [] ∧ pat.isPrefixOf (c :: rest) then
        rep ++ replaceAllAux pat rep fuel (List.drop pat.length (c :: rest))
      else
        c :: replaceAllAux pat rep fuel rest

def jsReplaceAll (s pat rep : String) : String :=
  String.mk (replaceAllAux pat.data rep.data (s.data.length + 1) s.data)

/-- Replace only the first occurrence of `pat` —
`String.prototype.replace` with a plain string pattern. -/
def replaceFirstAux (pat rep : List Char) : List Char → List Char
  | [] => []
  | c :: rest =>
      if pat ≠ [] ∧ pat.isPrefixOf (c :: rest) then
        rep ++ List.drop pat.length (c :: rest)
      else
        c :: replaceFirstAux pat rep rest

def jsReplaceFirst (s pat rep : String) : String :=
  String.mk (replaceFirstAux pat.data rep.data s.data)

def jsStartsWith (s pre : String) : Bool :=
  pre.data.isPrefixOf s.data

/-- `parseInt(s)` in base 10: skip leading whitespace, optional sign,
then leading digits; `none` stands for `NaN` (no digits). -/
def jsParseInt (s : String) : Option Int :=
  let l := s.data.dropWhile isJsWs
  let (sign, l) : Int × List Char :=
    match l with
    | '-' :: rest => (-1, rest)
    | '+' :: rest => (1, rest)
    | rest => (1, rest)
  let digits := l.takeWhile (fun c => c.isDigit)
  if digits = [] then none
  else some (sign * (digits.foldl (fun n c => n * 10 + (c.toNat - '0'.toNat)) 0 : Nat))

/-! ### JSON.parse / JSON.stringify -/

def digitsToNat (l : List Char) : Nat :=
  l.foldl (fun n c => n * 10 + (c.toNat - '0'.toNat)) 0

def skipWs (l : List Char) : List Char :=
  l.dropWhile isJsWs

def hexVal (c : Char) : Nat :=
  if c.isDigit then c.toNat - '0'.toNat
  else if 'a' ≤ c ∧ c ≤ 'f' then c.toNat - 'a'.toNat + 10
  else if 'A' ≤ c ∧ c ≤ 'F' then c.toNat - 'A'.toNat + 10
  else 0

/-- Scan a JSON string body (the opening quote already consumed); returns
the decoded string and the input after the closing quote. -/
def parseStringBody : List Char → List Char → Option (String × List Char)
  | acc, '"' :: rest => some (String.mk acc.reverse, rest)
  | acc, '\\' :: e :: rest =>
      match e with
      | '"' => parseStringBody ('"' :: acc) rest
      | '\\' => parseStringBody ('\\' :: acc) rest
      | '/' => parseStringBody ('/' :: acc) rest
      | 'n' => parseStringBody ('\n' :: acc) rest
      | 't' => parseStringBody ('\t' :: acc) rest
      | 'r' => parseStringBody ('\r' :: acc) rest
      | 'b' => parseStringBody (Char.ofNat 8 :: acc) rest
      | 'f' => parseStringBody (Char.ofNat 12 :: acc) rest
      | 'u' =>
          match rest with
          | a :: b :: c :: d :: rest2 =>
              parseStringBody
                (Char.ofNat (((hexVal a * 16 + hexVal b) * 16 + hexVal c) * 16 + hexVal d) :: acc)
                rest2
          | _ => none
      | _ => none
  | _, [] => none
  | acc, c :: rest => parseStringBody (c :: acc) rest

/-- Scan a JSON number (integer, fraction, exponent) into a rational. -/
def parseNumber (l : List Char) : Option (ℚ × List Char) :=
  let (sign, l1) : ℚ × List Char :=
    match l with
    | '-' :: rest => (-1, rest)
    | rest => (1, rest)
  let intDigits := l1.takeWhile Char.isDigit
  if intDigits = [] then none else
  let l2 := l1.drop intDigits.length
  let intPart : ℚ := (digitsToNat intDigits : ℚ)
  let (value, l3) : ℚ × List Char :=
    match l2 with
    | '.' :: rest =>
        let fracDigits := rest.takeWhile Char.isDigit
        (intPart + (digitsToNat fracDigits : ℚ) / ((10 : ℚ) ^ fracDigits.length),
          rest.drop fracDigits.length)
    | _ => (intPart, l2)
  let (value2, l4) : ℚ × List Char :=
    match l3 with
    | 'e' :: rest => (value, rest)
    | 'E' :: rest => (value, rest)
    | _ => (value, [])
  -- exponent handling: only reached when l3 started with e/E
  match l3 with
  | 'e' :: _ | 'E' :: _ =>
      let (esign, l5) : Bool × List Char :=
        match l4 with
        | '-' :: rest => (true, rest)
        | '+' :: rest => (false, rest)
        | rest => (false, rest)
      let expDigits := l5.takeWhile Char.isDigit
      if expDigits = [] then none
      else
        let e := digitsToNat expDigits
        let scaled := if esign then value2 / ((10 : ℚ) ^ e) else value2 * ((10 : ℚ) ^ e)
        some (sign * scaled, l5.drop expDigits.length)
  | _ => some (sign * value, l3)

mutual
/-- Fueled JSON value parser (`JSON.parse` grammar). -/
def parseVal : Nat → List Char → Option (JsonVal × List Char)
  | 0, _ => none
  | fuel + 1, l =>
      match skipWs l with
      | 'n' :: 'u' :: 'l' :: 'l' :: rest => some (.jnull, rest)
      | 't' :: 'r' :: 'u' :: 'e' :: rest => some (.jbool true, rest)
      | 'f' :: 'a' :: 'l' :: 's' :: 'e' :: rest => some (.jbool false, rest)
      | '"' :: rest =>
          match parseStringBody [] rest with
          | some (s, rest2) => some (.jstr s, rest2)
          | none => none
      | '[' :: rest =>
          (match skipWs rest with
          | ']' :: rest2 => some (.jarr .nil, rest2)
          | _ =>
              match parseArrItems fuel rest with
              | some (a, rest2) => some (.jarr a, rest2)
              | none => none)
      | '\x7b' :: rest =>
          (match skipWs rest with
          | '\x7d' :: rest2 => some (.jobj .nil, rest2)
          | _ =>
              match parseObjItems fuel rest with
              | some (o, rest2) => some (.jobj o, rest2)
              | none => none)
      | l2 =>
          match parseNumber l2 with
          | some (q, rest) => some (.jnum q, rest)
          | none => none

/-- Parse array items after `[` (at least one item present). -/
def parseArrItems : Nat → List Char → Option (JsonArr × List Char)
  | 0, _ => none
  | fuel + 1, l =>
      match parseVal fuel l with
      | some (v, rest) =>
          (match skipWs rest with
          | ',' :: rest2 =>
              (match parseArrItems fuel rest2 with
              | some (tl, rest3) => some (.cons v tl, rest3)
              | none => none)
          | ']' :: rest2 => some (.cons v .nil, rest2)
          | _ => none)
      | none => none

/-- Parse object members after the opening brace (at least one member). -/
def parseObjItems : Nat → List Char → Option (JsonObj × List Char)
  | 0, _ => none
  | fuel + 1, l =>
      match skipWs l with
      | '"' :: rest =>
          (match parseStringBody [] rest with
          | some (k, rest2) =>
              (match skipWs rest2 with
              | ':' :: rest3 =>
                  (match parseVal fuel rest3 with
                  | some (v, rest4) =>
                      (match skipWs rest4 with
                      | ',' :: rest5 =>
                          (match parseObjItems fuel rest5 with
                          | some (o, rest6) =>
                              -- duplicate keys: first position, last value wins
                              (match o.lookup k with
                              | some v2 => some (.cons k v2 (o.removeKey k), rest6)
                              | none => some (.cons k v o, rest6))
                          | none => none)
                      | '\x7d' :: rest5 => some (.cons k v .nil, rest5)
                      | _ => none)
                  | none => none)
              | _ => none)
          | none => none)
      | _ => none
end

/-- `JSON.parse`: `none` models the thrown `SyntaxError`. -/
def jsonParse (s : String) : Option JsonVal :=
  match parseVal (s.data.length + 1) s.data with
  | some (v, rest) => if skipWs rest = [] then some v else none
  | none => none

def escapeChar (c : Char) : List Char :=
  if c = '"' then ['\\', '"']
  else if c = '\\' then ['\\', '\\']
  else if c = '\n' then ['\\', 'n']
  else if c = '\t' then ['\\', 't']
  else if c = '\r' then ['\\', 'r']
  else [c]

def escapeJsonString (s : String) : String :=
  String.mk ('"' :: (s.data.flatMap escapeChar) ++ ['"'])

/-- Render a JSON number.  The plugin serialises account indices and
upstream response fields, which are integers; the non-integer branch is
never exercised by the claims. -/
def stringifyNum (q : ℚ) : String :=
  if q.den = 1 then toString q.num else toString q.num ++ "/" ++ toString q.den

mutual
/-- Compact `JSON.stringify`. -/
def JsonVal.stringify : JsonVal → String
  | .jnull => "null"
  | .jbool true => "true"
  | .jbool false => "false"
  | .jnum q => stringifyNum q
  | .jstr s => escapeJsonString s
  | .jarr .nil => "[]"
  | .jarr (.cons h t) => "[" ++ h.stringify ++ JsonArr.stringifyTail t ++ "]"
  | .jobj .nil => "\x7b\x7d"
  | .jobj (.cons k v t) =>
      "\x7b" ++ escapeJsonString k ++ ":" ++ v.stringify ++ JsonObj.stringifyTail t ++ "\x7d"

def JsonArr.stringifyTail : JsonArr → String
  | .nil => ""
  | .cons h t => "," ++ h.stringify ++ JsonArr.stringifyTail t

def JsonObj.stringifyTail : JsonObj → String
  | .nil => ""
  | .cons k v t => "," ++ escapeJsonString k ++ ":" ++ v.stringify ++ JsonObj.stringifyTail t
end

/-! ### Log sanitisation (`sanitizeLogData`, logger module) -/

/-- `SENSITIVE_KEY_PATTERN` — case-insensitive substring match; the
`[_-]?` regex pieces are expanded into their three literal variants. -/
def matchesSensitiveKey (k : String) : Bool :=
  let l := (lowerString k).data
  containsSub l ("authorization".data) ||
  containsSub l ("accesstoken".data) ||
  containsSub l ("access_token".data) ||
  containsSub l ("access-token".data) ||
  containsSub l ("refreshtoken".data) ||
  containsSub l ("refresh_token".data) ||
  containsSub l ("refresh-token".data) ||
  containsSub l ("apikey".data) ||
  containsSub l ("api_key".data) ||
  containsSub l ("api-key".data) ||
  containsSub l ("password".data) ||
  containsSub l ("secret".data) ||
  containsSub l ("cookie".data) ||
  containsSub l ("chatgpt-account-id".data) ||
  containsSub l ("account_id".data)

/-- `OMITTED_CONTENT_KEYS` — anchored, case-insensitive. -/
def matchesOmittedKey (k : String) : Bool :=
  lowerString k = "body" || lowerString k = "fullcontent"

mutual
/-- `sanitizeLogData`: arrays map recursively; objects redact entries by
key; primitives pass through. -/
def sanitizeLogData : JsonVal → JsonVal
  | .jarr a => .jarr (sanitizeArr a)
  | .jobj o => .jobj (sanitizeObj o)
  | v => v

def sanitizeArr : JsonArr → JsonArr
  | .nil => .nil
  | .cons h t => .cons (sanitizeLogData h) (sanitizeArr t)

def sanitizeObj : JsonObj → JsonObj
  | .nil => .nil
  | .cons k v tl =>
      if matchesOmittedKey k then .cons k (.jstr "[OMITTED]") (sanitizeObj tl)
      else if matchesSensitiveKey k then .cons k (.jstr "[REDACTED]") (sanitizeObj tl)
      else .cons k (sanitizeLogData v) (sanitizeObj tl)
end

mutual
/-- Canonical mask: replace every value stored under a sensitive or
content-omitted key by `null`, recursing elsewhere.  Two inputs "differ
only in secret values" exactly when their masks coincide. -/
def maskSecrets : JsonVal → JsonVal
  | .jarr a => .jarr (maskSecretsArr a)
  | .jobj o => .jobj (maskSecretsObj o)
  | v => v

def maskSecretsArr : JsonArr → JsonArr
  | .nil => .nil
  | .cons h t => .cons (maskSecrets h) (maskSecretsArr t)

def maskSecretsObj : JsonObj → JsonObj
  | .nil => .nil
  | .cons k v tl =>
      if matchesOmittedKey k || matchesSensitiveKey k then
        .cons k .jnull (maskSecretsObj tl)
      else .cons k (maskSecrets v) (maskSecretsObj tl)
end

/-! ### Session binding store (`src/lib/session-bindings.ts`) and secure
file writes (`src/lib/secure-file.ts`).

File-system side effects are embedded as explicit operation traces; the
persisted file content is kept structured (the JSON document written),
since `JSON.parse ∘ JSON.stringify` is the identity on these documents. -/

/-- One attempted file-system side effect. -/
inductive FsOp : Type where
  | mkdirRecursive (path : String)
  | writeFile (path : String) (content : JsonVal)
  | chmod (path : String) (mode : Nat)
  | rename (src dst : String)

def FsOp.isRename : FsOp → Bool
  | .rename _ _ => true
  | _ => false

/-- The path a write targets, if the operation is a plain file write. -/
def FsOp.writeTarget : FsOp → Option String
  | .writeFile p _ => some p
  | _ => none

/-- `path.dirname` (POSIX). -/
def dirname (p : String) : String :=
  if p.data.contains '/' then
    match p.data.reverse.dropWhile (fun c => c ≠ '/') with
    | '/' :: rest => if rest = [] then "/" else String.mk rest.reverse
    | _ => "."
  else "."

/-- In-memory `Map<string, number>` of session bindings, insertion
ordered. -/
abbrev Bindings := List (String × ℚ)

def bindingsGet : Bindings → String → Option ℚ
  | [], _ => none
  | (k0, v0) :: tl, k => if k0 = k then some v0 else bindingsGet tl k

/-- `Map.set`: overwrite in place, else append. -/
def bindingsSet : Bindings → String → ℚ → Bindings
  | [], k, v => [(k, v)]
  | (k0, v0) :: tl, k, v =>
      if k0 = k then (k0, v) :: tl else (k0, v0) :: bindingsSet tl k v

def bindingsHas : Bindings → String → Bool
  | [], _ => false
  | (k0, _) :: tl, k => k0 = k || bindingsHas tl k

/-- `Map.delete`: remove the entry (bindings built by the store keep keys
unique). -/
def bindingsDelete : Bindings → String → Bindings
  | [], _ => []
  | (k0, v0) :: tl, k =>
      if k0 = k then bindingsDelete tl k else (k0, v0) :: bindingsDelete tl k

def serializeBindings : Bindings → JsonObj
  | [] => .nil
  | (k, v) :: tl => .cons k (.jnum v) (serializeBindings tl)

/-- The versioned document `saveToDisk` serialises:
`\x7bversion: 1, bindings: \x7b...\x7d\x7d`. -/
def persistedDoc (m : Bindings) : JsonVal :=
  .jobj (.cons "version" (.jnum 1) (.cons "bindings" (.jobj (serializeBindings m)) .nil))

namespace SessionBindingStore

/-- `saveToDisk`: make the parent directory, then write the document
directly to the bindings file (a single `writeFileSync`). -/
def saveToDisk (filePath : String) (m : Bindings) : List FsOp :=
  [.mkdirRecursive (dirname filePath), .writeFile filePath (persistedDoc m)]

/-- `set(sessionKey, accountIndex)`: update the map and persist. -/
def set (filePath : String) (m : Bindings) (k : String) (v : ℚ) :
    Bindings × List FsOp :=
  let m2 := bindingsSet m k v
  (m2, saveToDisk filePath m2)

/-- `delete(sessionKey)`: remove and persist, or do nothing when the key
was absent. -/
def del (filePath : String) (m : Bindings) (k : String) :
    Bindings × List FsOp :=
  if bindingsHas m k then
    let m2 := bindingsDelete m k
    (m2, saveToDisk filePath m2)
  else (m, [])

end SessionBindingStore

/-- What the bindings file can hold when a store loads it. -/
inductive FileState : Type where
  | missing : FileState
  | notJson (raw : String) : FileState
  | doc (v : JsonVal) : FileState

/-- The file state `saveToDisk` leaves behind. -/
def persistState (m : Bindings) : FileState :=
  .doc (persistedDoc m)

/-- One iteration of the `loadFromDisk` entry loop: skip empty session
keys and non-`Number.isInteger`-or-negative account indices, keep the
rest. -/
def loadEntry (m : Bindings) (e : String × JsonVal) : Bindings :=
  if e.1 = "" then m
  else
    match e.2 with
    | .jnum q => if q.den = 1 ∧ 0 ≤ q then bindingsSet m e.1 q else m
    | _ => m

/-- `loadFromDisk`, folding entries into the store's current map `init`
(a fresh store starts empty).  The `notJson` case is the caught
`JSON.parse` exception; every case returns normally. -/
def loadFromDisk (init : Bindings) (f : FileState) : Bindings :=
  match f with
  | .missing => init
  | .notJson _ => init
  | .doc v =>
      match v.getProp "bindings" with
      | none => init
      | some loaded =>
          if !(loaded.truthy && loaded.typeofIsObject) then init
          else loaded.entries.foldl loadEntry init

/-- `writeJsonSecure` (`src/lib/secure-file.ts`): write to a
pid-and-timestamp temp file, fix its mode, rename it over the target. -/
def tempPathFor (path : String) (pid nowMs : Nat) : String :=
  path ++ ".tmp-" ++ toString pid ++ "-" ++ toString nowMs

def writeJsonSecure (path : String) (data : JsonVal) (pid nowMs : Nat) : List FsOp :=
  let tempPath := tempPathFor path pid nowMs
  [.mkdirRecursive (dirname path), .chmod (dirname path) 448,
   .writeFile tempPath data, .chmod tempPath 384,
   .rename tempPath path, .chmod path 384]

/-! ### Stream-to-document adapter
(`src/lib/request/response-handler.ts`) -/

def jsTrimStart (s : String) : String :=
  String.mk (s.data.dropWhile isJsWs)

/-- `parsePayload` inside `parseSseStream`: decode one SSE data payload;
`some` is returned only for a completion event's `response` field. -/
def parsePayload (payload : String) : Option JsonVal :=
  if payload = "" ∨ payload = "[DONE]" then none
  else
    match jsonParse payload with
    | none => none
    | some data =>
        match data.getProp "type" with
        | some (.jstr t) =>
            if t = "response.done" ∨ t = "response.completed" then
              data.getProp "response"
            else none
        | _ => none

/-- First payload in the list that parses to a truthy response (the
`if (parsed) return parsed` loop). -/
def firstTruthy (f : α → Option JsonVal) : List α → Option JsonVal
  | [] => none
  | x :: rest =>
      match f x with
      | some p => if p.truthy then some p else firstTruthy f rest
      | none => firstTruthy f rest

/-- Payloads gathered from one SSE event block: `data:` lines, with one
leading space stripped, joined by newlines and trimmed. -/
def blockPayload (eventBlock : String) : Option String :=
  let dataLines :=
    (jsSplit eventBlock "\n").filterMap fun line =>
      if jsStartsWith line "data:" then
        let payload := String.mk (line.data.drop 5)
        some (if jsStartsWith payload " " then String.mk (payload.data.drop 1) else payload)
      else none
  if dataLines = [] then none
  else some (jsTrim (String.intercalate "\n" dataLines))

/-- `parseSseStream`: scan blank-line-delimited event blocks, then fall
back to one payload per `data:` line. -/
def parseSseStream (sseText : String) : Option JsonVal :=
  let normalized := jsReplaceAll sseText "\r\n" "\n"
  let events := jsSplit normalized "\n\n"
  let fromBlocks :=
    firstTruthy
      (fun block =>
        match blockPayload block with
        | some payload => parsePayload payload
        | none => none)
      events
  match fromBlocks with
  | some p => some p
  | none =>
      firstTruthy
        (fun line =>
          if jsStartsWith line "data:" then
            parsePayload (jsTrimStart (String.mk (line.data.drop 5)))
          else none)
        (jsSplit normalized "\n")

/-- The observable parts of a `Response` the adapter builds. -/
structure MockResponse : Type where
  status : Nat
  statusText : String
  headers : List (String × String)
  body : String
deriving DecidableEq, Repr

/-- `Headers.set` — case-insensitive replace. -/
def headersSet (h : List (String × String)) (name value : String) :
    List (String × String) :=
  h.filter (fun e => lowerString e.1 ≠ lowerString name) ++ [(name, value)]

/-- Case-insensitive `Headers.get`. -/
def headersGet (h : List (String × String)) (name : String) : Option String :=
  (h.find? (fun e => lowerString e.1 = lowerString name)).map (·.2)

/-- `convertSseToJson`, with the stream already concatenated into
`fullText` (the reader loop plus the final decoder flush). -/
def convertSseToJson (fullText : String) (status : Nat) (statusText : String)
    (headers : List (String × String)) : MockResponse :=
  match parseSseStream fullText with
  | none => ⟨status, statusText, headers, fullText⟩
  | some finalResponse =>
      ⟨status, statusText,
        headersSet headers "content-type" "application/json; charset=utf-8",
        finalResponse.stringify⟩

/-! ### Account pool, selection and dispatch (`src/index.ts`).

The account manager itself (`src/lib/accounts/manager.ts`) is not part of
the repository snapshot — only its callers and tests are — so the pool
bookkeeping and the sticky selection strategy below are modelled from
the specification (§4.1–§4.2), consistent with the behaviour the tests
in `src/test/session-bindings.test.ts` pin down. -/

/-- One managed account, reduced to the fields the dispatch engine
branches on: its stable `index`, whether `ensureValidToken` succeeds for
it, and whether an account id can be resolved for it. -/
structure Account : Type where
  index : Nat
  tokenValid : Bool
  hasAccountId : Bool
deriving DecidableEq, Repr

/-- A cool-down duration in milliseconds; `nan` is JavaScript `NaN`
(e.g. a non-numeric `Retry-After` header). -/
inductive RetryMs : Type where
  | nan : RetryMs
  | fin (ms : Int) : RetryMs
deriving DecidableEq, Repr

def RetryMs.subInt : RetryMs → Int → RetryMs
  | .nan, _ => .nan
  | .fin v, n => .fin (v - n)

/-- One `markRateLimited` record: account index, duration, and the model
scope (`none` = global). -/
structure RateMark : Type where
  idx : Nat
  ms : RetryMs
  model : Option String
deriving DecidableEq, Repr

/-- The mutable account-manager state the dispatch chain threads. -/
structure MgrState : Type where
  accounts : List Account
  refreshFailed : List Nat
  rateMarks : List RateMark
deriving DecidableEq, Repr

/-- Modelled from the spec (§4.1): does this cool-down mark make the
account unusable for a request for `model`?  A mark scoped to a
different model does not block; a global mark blocks everything; an
elapsed (non-positive) or `NaN` duration does not block. -/
def RateMark.blocks (mark : RateMark) (model : Option String) : Bool :=
  (match mark.ms with
   | .nan => false
   | .fin v => decide (0 < v)) &&
  (match mark.model with
   | none => true
   | some m => decide (model = some m))

/-- Modelled from the spec (§4.1 `isAvailable`): not refresh-failed, and
no blocking rate-limit mark for the requested model. -/
def isAvailable (st : MgrState) (a : Account) (model : Option String) : Bool :=
  !(st.refreshFailed.contains a.index) &&
  !(st.rateMarks.any fun mark => (mark.idx == a.index) && mark.blocks model)

/-- Modelled from the spec (§4.2, sticky mode — the plugin default):
lowest-index available account whose index is not excluded, or `none`. -/
def getNextAvailableAccountExcluding (st : MgrState) (excluded : List Nat)
    (model : Option String) : Option Account :=
  st.accounts.find? fun a => !(excluded.contains a.index) && isAvailable st a model

/-- Modelled from the spec (§4.2): selection with no exclusions. -/
def getNextAvailableAccount (st : MgrState) (model : Option String) : Option Account :=
  getNextAvailableAccountExcluding st [] model

/-- Modelled from the spec (§4.1): record a cool-down, scoped to `model`
when one was specified. -/
def markRateLimited (st : MgrState) (a : Account) (ms : RetryMs)
    (model : Option String) : MgrState :=
  { st with rateMarks := ⟨a.index, ms, model⟩ :: st.rateMarks }

/-- Modelled from the spec (§4.1): mark the account unusable until a
future successful refresh. -/
def markRefreshFailed (st : MgrState) (a : Account) : MgrState :=
  { st with refreshFailed := a.index :: st.refreshFailed }

/-- A URL split into the parts the validator inspects. -/
structure UrlParts : Type where
  scheme : String
  host : String
  path : String
deriving DecidableEq, Repr

/-- Modelled from the spec (§6, §8; `fetch-helpers.ts` is outside the
snapshot, its tests in the repository pin the rewrite down): replace only
the first occurrence of `/responses` with `/codex/responses`. -/
def rewriteUrlForCodex (u : UrlParts) : UrlParts :=
  { u with path := jsReplaceFirst u.path "/responses" "/codex/responses" }

/-- Modelled from the spec (§6, §8): accept only `https`, the single
trusted host, and the allow-listed backend path prefix. -/
def validateCodexBackendUrl (u : UrlParts) : Bool :=
  (u.scheme == "https") && (u.host == "chatgpt.com") &&
  jsStartsWith u.path "/backend-api/codex/responses"

/-- The upstream response fields the engine classifies on. -/
structure Upstream : Type where
  status : Nat
  retryAfter : Option String
  bodyJson : Option JsonVal

/-- `Response.ok`. -/
def okStatus (s : Nat) : Bool :=
  decide (200 ≤ s) && decide (s ≤ 299)

/-- `new Date(resetTime).getTime()`: a numeric `resets_at` is an epoch
timestamp; other shapes are treated as an invalid date (`NaN`). -/
def jsDateGetTime : JsonVal → RetryMs
  | .jnum q => .fin q.floor
  | _ => .nan

/-- `errorBody?.error?.details?.resets_at || errorBody?.resets_at`. -/
def resetTimeOf (b : JsonVal) : Option JsonVal :=
  jsOr (b.getProp "error" >>= (·.getProp "details") >>= (·.getProp "resets_at"))
    (b.getProp "resets_at")

/-- The body half of the 429 cool-down computation: a truthy `resets_at`
minus now, else the fixed 60000 ms fallback (also used when the body is
not JSON — the caught `clone().json()` rejection). -/
def bodyResetMs (bodyJson : Option JsonVal) (now : Int) : RetryMs :=
  match bodyJson with
  | none => .fin 60000
  | some b =>
      match resetTimeOf b with
      | some rt => if rt.truthy then (jsDateGetTime rt).subInt now else .fin 60000
      | none => .fin 60000

/-- The cool-down computation of the 429 branch (`src/index.ts`
452–472): `Retry-After` header first (seconds, `parseInt`, times 1000;
an empty header string is falsy), else the body-derived reset time, else
the fixed fallback. -/
def computeRetryAfterMs (resp : Upstream) (now : Int) : RetryMs :=
  match resp.retryAfter with
  | some h =>
      if h = "" then bodyResetMs resp.bodyJson now
      else
        match jsParseInt h with
        | some n => .fin (n * 1000)
        | none => .nan
  | none => bodyResetMs resp.bodyJson now

/-- Modelled from the spec (§7; `fetch-helpers.ts` outside the snapshot,
behaviour pinned by its tests): the usage-limit 404 shape is remapped to
429, everything else passes through. -/
def isUsageLimitBody (b : Option JsonVal) : Bool :=
  match b >>= (·.getProp "error") >>= (·.getProp "code") with
  | some (.jstr s) => s == "usage_limit_reached"
  | _ => false

/-- Modelled from the spec (§7): error-shape normalization. -/
def handleErrorResponse (u : Upstream) : Upstream :=
  if u.status == 404 && isUsageLimitBody u.bodyJson then { u with status := 429 } else u

def bodyModel (body : JsonVal) : Option String :=
  match body.getProp "model" with
  | some (.jstr s) => some s
  | _ => none

def bodyIsStreaming (body : JsonVal) : Bool :=
  match body.getProp "stream" with
  | some (.jbool true) => true
  | _ => false

/-- `errorBody?.detail || errorBody?.error?.message || ""`; `none` stands
for a non-string truthy winner, on which `detail.includes` would raise a
`TypeError` that the surrounding `catch` swallows. -/
def extract400Detail (b : JsonVal) : Option String :=
  match jsOr (b.getProp "detail")
      (jsOr (b.getProp "error" >>= (·.getProp "message")) (some (.jstr ""))) with
  | some (.jstr s) => some s
  | _ => none

def isModelUnsupportedDetail (s : String) : Bool :=
  strIncludes s "model is not supported" || strIncludes s "not supported when using Codex"

/-- Property assignment `obj.model = fallbackModel` (a no-op on
non-objects, as in JavaScript for primitives, and invisible to
`JSON.stringify` for arrays). -/
def jsSetProp : JsonVal → String → JsonVal → JsonVal
  | .jobj o, k, v => .jobj (o.setKey k v)
  | w, _, _ => w

/-- One physical attempt in the dispatch trace. -/
structure Attempt : Type where
  accountIdx : Nat
  model : Option String
  retryCount : Nat
deriving DecidableEq, Repr

/-- The terminal responses `executeRequest` can produce. -/
inductive DispatchResp : Type where
  | tokenRefreshFailed : DispatchResp
  | invalidBackendUrl : DispatchResp
  | noAccountId : DispatchResp
  | errorResponse (u : Upstream) : DispatchResp
  | successResponse (u : Upstream) (isStreaming : Bool) : DispatchResp

def DispatchResp.statusOf : DispatchResp → Nat
  | .tokenRefreshFailed => 401
  | .invalidBackendUrl => 400
  | .noAccountId => 401
  | .errorResponse u => u.status
  | .successResponse u _ => u.status

structure DispatchResult : Type where
  resp : DispatchResp
  state : MgrState
  trace : List Attempt

/-- The request-independent environment of a dispatch chain: what the
backend answers per (account index, requested model), the static
`MODEL_FALLBACKS` table (`constants.ts`, outside the snapshot, modelled
from the spec's "statically configured substitute model name"), the
inbound URL, and the clock. -/
structure DispatchEnv : Type where
  fetchFn : Nat → Option String → Upstream
  fallbacks : String → Option String
  url : UrlParts
  now : Int

def insertTried (i : Nat) (tried : List Nat) : List Nat :=
  if tried.contains i then tried else i :: tried

def prependAttempt (a : Attempt) (r : DispatchResult) : DispatchResult :=
  { r with trace := a :: r.trace }

/-- `executeRequest` (`src/index.ts` 333–600), fueled: `none` is fuel
exhaustion, never returned for sufficient fuel in the scenarios proved
below.  Toast/log side effects are omitted; the manager state, the
physical-attempt trace and the terminal response are made explicit. -/
def executeRequest (env : DispatchEnv) :
    Nat → MgrState → Account → Option JsonVal → Nat → List Nat → Option DispatchResult
  | 0, _, _, _, _, _ => none
  | fuel + 1, st, account, body, retryCount, tried =>
      let tried := insertTried account.index tried
      if account.tokenValid = false then
        -- ensureValidToken declined: the validator records the refresh
        -- failure (spec §4.4) and the engine switches accounts (no model
        -- filter on this call in the source)
        let st := markRefreshFailed st account
        match getNextAvailableAccountExcluding st tried none with
        | some next =>
            if next.index ≠ account.index then
              executeRequest env fuel st next body retryCount tried
            else some ⟨.tokenRefreshFailed, st, []⟩
        | none => some ⟨.tokenRefreshFailed, st, []⟩
      else
      if validateCodexBackendUrl (rewriteUrlForCodex env.url) = false then
        some ⟨.invalidBackendUrl, st, []⟩
      else
      let originalBody := body.getD (.jobj .nil)
      let isStreaming := bodyIsStreaming originalBody
      let model := bodyModel originalBody
      if account.hasAccountId = false then
        some ⟨.noAccountId, st, []⟩
      else
      let response := env.fetchFn account.index model
      let att : Attempt := ⟨account.index, model, retryCount⟩
      let finish : MgrState → DispatchResult := fun st2 =>
        ⟨if okStatus response.status then .successResponse response isStreaming
          else .errorResponse (handleErrorResponse response), st2, [att]⟩
      if response.status = 429 then
        let ms := computeRetryAfterMs response env.now
        let st := markRateLimited st account ms model
        -- `retryCount < getAccountCount() - 1` in the source's integer
        -- arithmetic, written overflow-safely on Nat
        if retryCount + 1 < st.accounts.length then
          match getNextAvailableAccountExcluding st tried model with
          | some next =>
              if next.index ≠ account.index then
                (executeRequest env fuel st next body (retryCount + 1) tried).map
                  (prependAttempt att)
              else some (finish st)
          | none => some (finish st)
        else some (finish st)
      else if response.status = 401 then
        let st := markRefreshFailed st account
        match getNextAvailableAccountExcluding st tried model with
        | some next =>
            if next.index ≠ account.index then
              (executeRequest env fuel st next body (retryCount + 1) tried).map
                (prependAttempt att)
            else some (finish st)
        | none => some (finish st)
      else if response.status = 400 then
        match response.bodyJson with
        | none => some (finish st)      -- body not JSON: parse throws, caught
        | some errorBody =>
            match extract400Detail errorBody with
            | none => some (finish st)  -- non-string detail: TypeError, caught
            | some detail =>
                if isModelUnsupportedDetail detail then
                  let requestedModel := model.getD ""
                  if requestedModel = "" then some (finish st)
                  else
                    match getNextAvailableAccountExcluding st tried (some requestedModel) with
                    | some next =>
                        (executeRequest env fuel st next body retryCount tried).map
                          (prependAttempt att)
                    | none =>
                        match env.fallbacks requestedModel with
                        | some fallbackModel =>
                            let modifiedBody :=
                              jsSetProp originalBody "model" (.jstr fallbackModel)
                            match getNextAvailableAccount st (some fallbackModel) with
                            | some fallbackAccount =>
                                (executeRequest env fuel st fallbackAccount
                                    (some modifiedBody) 0 []).map (prependAttempt att)
                            | none =>
                                (executeRequest env fuel st account
                                    (some modifiedBody) (retryCount + 1) []).map
                                  (prependAttempt att)
                        | none => some (finish st)
                else some (finish st)
      else some (finish st)

/-! ### Session-bound account resolution (`src/index.ts` 200–226) -/

/-- The collaborators `getSessionBoundAccount` consults: the live account
list and the two manager selection entry points (modelled as opaque
choice functions, since the manager is outside the snapshot). -/
structure SessionEnv : Type where
  accounts : List Account
  selectPlain : Option String → Option Account
  selectNewSession : Option String → Option Account

/-- `findAccountByIndex` — the bound index is a JavaScript number. -/
def findAccountByIndex (accounts : List Account) (i : ℚ) : Option Account :=
  accounts.find? fun a => (a.index : ℚ) == i

/-- The unbound tail of `getSessionBoundAccount`: pick a new-session
account and persist the binding only when one was found. -/
def resolveUnbound (env : SessionEnv) (filePath : String) (m : Bindings)
    (ops : List FsOp) (k : String) (model : Option String) :
    Option Account × Bindings × List FsOp :=
  match env.selectNewSession model with
  | some account =>
      let r := SessionBindingStore.set filePath m k (account.index : ℚ)
      (some account, r.1, ops ++ r.2)
  | none => (none, m, ops)

/-- `getSessionBoundAccount`: returns the chosen account, the updated
binding map, and the persistence operations performed. -/
def getSessionBoundAccount (env : SessionEnv) (filePath : String) (m : Bindings)
    (sessionKey : Option String) (model : Option String) :
    Option Account × Bindings × List FsOp :=
  match sessionKey with
  | none => (env.selectPlain model, m, [])
  | some k =>
      if k = "" then (env.selectPlain model, m, [])  -- `if (!sessionKey)`
      else
        match bindingsGet m k with
        | some boundIndex =>
            (match findAccountByIndex env.accounts boundIndex with
            | some bound => (some bound, m, [])
            | none =>
                let r := SessionBindingStore.del filePath m k
                resolveUnbound env filePath r.1 r.2 k model)
        | none => resolveUnbound env filePath m [] k model

end MultiAuth

namespace MultiAuth

/-! ### Concrete scenarios used by witnesses and counterexamples -/

/-- The trusted inbound URL before rewriting. -/
def trustedUrl : UrlParts := ⟨"https", "chatgpt.com", "/backend-api/responses"⟩

/-- Same URL over plain `http` — rejected by the validator. -/
def invalidSchemeUrl : UrlParts := ⟨"http", "chatgpt.com", "/backend-api/responses"⟩

/-- A healthy account at the given index. -/
def demoAccount (i : Nat) : Account := ⟨i, true, true⟩

def rateLimited429 : Upstream := ⟨429, some "120", none⟩

def ok200 : Upstream := ⟨200, none, none⟩

/-- A 400 response carrying the model-unsupported signature. -/
def modelUnsupported400 : Upstream :=
  ⟨400, none,
    some (.jobj (.cons "detail" (.jstr "The model is not supported on your account.") .nil))⟩

/-- A 429 response with no `Retry-After` header and a body `resets_at`. -/
def resetsAt429 : Upstream :=
  ⟨429, none, some (.jobj (.cons "resets_at" (.jnum 100000) .nil))⟩

def bodyModelX : JsonVal := .jobj (.cons "model" (.jstr "X") .nil)

/-- Every physical attempt is rate limited. -/
def allRateLimitedEnv : DispatchEnv :=
  ⟨fun _ _ => rateLimited429, fun _ => none, trustedUrl, 0⟩

/-- Every account rejects model `X` as unsupported and accepts anything
else; `Y` is the configured fallback for `X`. -/
def modelFallbackEnv : DispatchEnv :=
  ⟨fun _ m => if m = some "X" then modelUnsupported400 else ok200,
   fun m => if m = "X" then some "Y" else none, trustedUrl, 0⟩

/-- A healthy backend behind an untrusted inbound URL. -/
def invalidUrlEnv : DispatchEnv :=
  ⟨fun _ _ => ok200, fun _ => none, invalidSchemeUrl, 0⟩

/-- Rate limiting answered with a body reset time, clock at 30000 ms. -/
def resetsAtEnv : DispatchEnv :=
  ⟨fun _ _ => resetsAt429, fun _ => none, trustedUrl, 30000⟩

def twoAccountPool : MgrState := ⟨[demoAccount 0, demoAccount 1], [], []⟩

def oneAccountPool : MgrState := ⟨[demoAccount 0], [], []⟩

/-- One account, already cooling down for model `Y` (from an earlier
logical request), so no account is available for the fallback model. -/
def oneAccountRateLimitedY : MgrState :=
  ⟨[demoAccount 0], [], [⟨0, .fin 60000, some "Y"⟩]⟩

/-- A session environment with two live accounts: plain selection picks
account 0, new-session selection picks account 1. -/
def sessionDemoEnv : SessionEnv :=
  ⟨[demoAccount 0, demoAccount 1], fun _ => some (demoAccount 0),
    fun _ => some (demoAccount 1)⟩

end MultiAuth

/-! ## Theorems.

Helper lemmas first, then one theorem per claim (with witnesses and
counterexamples where required). -/

namespace MultiAuth

theorem bindingsGet_set_self (m : Bindings) (k : String) (q : ℚ) :
    bindingsGet (bindingsSet m k q) k = some q := by
  induction m with
  | nil => simp [bindingsSet, bindingsGet]
  | cons e tl ih =>
      obtain ⟨k0, v0⟩ := e
      by_cases h : k0 = k
      · simp [bindingsSet, h, bindingsGet]
      · simp [bindingsSet, h, bindingsGet, ih]

theorem bindingsGet_set_other (m : Bindings) (k k2 : String) (q : ℚ) (h : k2 ≠ k) :
    bindingsGet (bindingsSet m k q) k2 = bindingsGet m k2 := by
  induction m with
  | nil => simp [bindingsSet, bindingsGet, Ne.symm h]
  | cons e tl ih =>
      obtain ⟨k0, v0⟩ := e
      by_cases h0 : k0 = k
      · subst h0
        simp [bindingsSet, bindingsGet, Ne.symm h]
      · by_cases h2 : k0 = k2
        · simp [bindingsSet, h0, bindingsGet, h2, h]
        · simp [bindingsSet, h0, bindingsGet, h2, ih]

theorem bindingsGet_delete_self (m : Bindings) (k : String) :
    bindingsGet (bindingsDelete m k) k = none := by
  induction m with
  | nil => simp [bindingsDelete, bindingsGet]
  | cons e tl ih =>
      obtain ⟨k0, v0⟩ := e
      by_cases h : k0 = k
      · simp [bindingsDelete, h, ih]
      · simp [bindingsDelete, h, bindingsGet, ih]

theorem mem_keys_bindingsSet (m : Bindings) (k x : String) (q : ℚ) :
    x ∈ (bindingsSet m k q).map Prod.fst ↔ x ∈ m.map Prod.fst ∨ x = k := by
  induction m with
  | nil => simp [bindingsSet]
  | cons e tl ih =>
      obtain ⟨k0, v0⟩ := e
      by_cases h : k0 = k
      · subst h
        simp [bindingsSet]
        tauto
      · simp [bindingsSet, h, ih]
        tauto

theorem nodup_keys_bindingsSet (m : Bindings) (k : String) (q : ℚ)
    (h : (m.map Prod.fst).Nodup) : ((bindingsSet m k q).map Prod.fst).Nodup := by
  induction m with
  | nil => simp [bindingsSet]
  | cons e tl ih =>
      obtain ⟨k0, v0⟩ := e
      rw [List.map_cons, List.nodup_cons] at h
      by_cases hk : k0 = k
      · subst hk
        simpa [bindingsSet, List.nodup_cons] using h
      · rw [show bindingsSet ((k0, v0) :: tl) k q = (k0, v0) :: bindingsSet tl k q by
            simp [bindingsSet, hk]]
        rw [List.map_cons, List.nodup_cons]
        refine ⟨?_, ih h.2⟩
        rw [mem_keys_bindingsSet]
        rintro (hmem | hemem)
        · exact h.1 hmem
        · exact hk hemem

theorem mem_keys_bindingsDelete (m : Bindings) (k x : String)
    (h : x ∈ (bindingsDelete m k).map Prod.fst) : x ∈ m.map Prod.fst := by
  induction m with
  | nil => simp [bindingsDelete] at h
  | cons e tl ih =>
      obtain ⟨k0, v0⟩ := e
      by_cases hk : k0 = k
      · rw [show bindingsDelete ((k0, v0) :: tl) k = bindingsDelete tl k from by
            simp [bindingsDelete, hk]] at h
        rw [List.map_cons]
        exact List.mem_cons_of_mem _ (ih h)
      · rw [show bindingsDelete ((k0, v0) :: tl) k = (k0, v0) :: bindingsDelete tl k from by
            simp [bindingsDelete, hk]] at h
        rw [List.map_cons] at h ⊢
        rcases List.mem_cons.1 h with h | h
        · exact List.mem_cons.2 (Or.inl h)
        · exact List.mem_cons.2 (Or.inr (ih h))

theorem nodup_keys_bindingsDelete (m : Bindings) (k : String)
    (h : (m.map Prod.fst).Nodup) : ((bindingsDelete m k).map Prod.fst).Nodup := by
  induction m with
  | nil => simp [bindingsDelete]
  | cons e tl ih =>
      obtain ⟨k0, v0⟩ := e
      rw [List.map_cons, List.nodup_cons] at h
      by_cases hk : k0 = k
      · simp [bindingsDelete, hk, ih h.2]
      · rw [show bindingsDelete ((k0, v0) :: tl) k = (k0, v0) :: bindingsDelete tl k by
            simp [bindingsDelete, hk]]
        rw [List.map_cons, List.nodup_cons]
        exact ⟨fun hmem => h.1 (mem_keys_bindingsDelete tl k k0 hmem), ih h.2⟩

theorem bindingsHas_of_get (m : Bindings) (k : String) (q : ℚ)
    (h : bindingsGet m k = some q) : bindingsHas m k = true := by
  induction m with
  | nil => simp [bindingsGet] at h
  | cons e tl ih =>
      obtain ⟨k0, v0⟩ := e
      by_cases hk : k0 = k
      · simp [bindingsHas, hk]
      · rw [show bindingsGet ((k0, v0) :: tl) k = bindingsGet tl k by
            simp [bindingsGet, hk]] at h
        simp [bindingsHas, hk, ih h]

theorem serializeBindings_entries (m : Bindings) :
    (JsonVal.jobj (serializeBindings m)).entries =
      m.map fun e => (e.1, JsonVal.jnum e.2) := by
  induction m with
  | nil => rfl
  | cons e tl ih =>
      obtain ⟨k, v⟩ := e
      simpa [serializeBindings, JsonVal.entries, JsonObj.toList] using
        (by simpa [JsonVal.entries] using ih)

theorem loadFromDisk_persistState (init m : Bindings) :
    loadFromDisk init (persistState m) =
      (m.map fun e => (e.1, JsonVal.jnum e.2)).foldl loadEntry init := by
  rw [show loadFromDisk init (persistState m) =
      (JsonVal.jobj (serializeBindings m)).entries.foldl loadEntry init from rfl]
  rw [serializeBindings_entries]

theorem bindingsGet_foldl_loadEntry (l : List (String × JsonVal)) (init : Bindings)
    (s : String) (h : ∀ e ∈ l, e.1 ≠ s) :
    bindingsGet (l.foldl loadEntry init) s = bindingsGet init s := by
  induction l generalizing init with
  | nil => rfl
  | cons e tl ih =>
      rw [List.foldl_cons, ih _ fun e2 he2 => h e2 (List.mem_cons_of_mem _ he2)]
      have he := h e (List.mem_cons_self _ _)
      unfold loadEntry
      by_cases h1 : e.1 = ""
      · simp [h1]
      · simp only [h1, if_false]
        cases hv : e.2 with
        | jnum q =>
            by_cases hq : q.den = 1 ∧ 0 ≤ q
            · simp [hq, bindingsGet_set_other _ _ _ _ (Ne.symm he)]
            · simp [hq]
        | jnull => simp
        | jbool b => simp
        | jstr s2 => simp
        | jarr a => simp
        | jobj o => simp

theorem bindingsGet_load_fold (m : Bindings) (s : String) (hs : s ≠ "")
    (hnd : (m.map Prod.fst).Nodup) (init : Bindings)
    (hinit : bindingsGet init s = none) :
    bindingsGet ((m.map fun e => (e.1, JsonVal.jnum e.2)).foldl loadEntry init) s =
      (bindingsGet m s).bind fun q => if q.den = 1 ∧ 0 ≤ q then some q else none := by
  induction m generalizing init with
  | nil => simp [bindingsGet, hinit]
  | cons e tl ih =>
      obtain ⟨k, v⟩ := e
      rw [List.map_cons, List.nodup_cons] at hnd
      rw [List.map_cons, List.foldl_cons]
      by_cases hk : k = s
      · subst hk
        have htl : ∀ e2 ∈ tl.map (fun e => (e.1, JsonVal.jnum e.2)), e2.1 ≠ k := by
          intro e2 he2 hc
          obtain ⟨e0, he0, rfl⟩ := List.mem_map.1 he2
          have h1 : e0.1 ∈ tl.map Prod.fst := List.mem_map_of_mem Prod.fst he0
          have h2 : e0.1 = k := hc
          exact hnd.1 (h2 ▸ h1)
        rw [bindingsGet_foldl_loadEntry _ _ _ htl]
        unfold loadEntry
        simp only [hs, if_false]
        by_cases hv : v.den = 1 ∧ 0 ≤ v
        · simp [hv, bindingsGet_set_self, bindingsGet]
        · simp [hv, hinit, bindingsGet]
      · have hstep : bindingsGet (loadEntry init (k, JsonVal.jnum v)) s = none := by
          unfold loadEntry
          by_cases h1 : k = ""
          · simpa [h1] using hinit
          · simp only [h1, if_false]
            by_cases hv : v.den = 1 ∧ 0 ≤ v
            · simp [hv, bindingsGet_set_other _ _ _ _ fun hc => hk hc.symm, hinit]
            · simp [hv, hinit]
        rw [ih hnd.2 _ hstep]
        simp [bindingsGet, hk]

theorem tempPathFor_ne (path : String) (pid nowMs : Nat) :
    tempPathFor path pid nowMs ≠ path := by
  intro h
  have h2 := congrArg String.length h
  have h5 : (".tmp-" : String).length = 5 := rfl
  have h1 : ("-" : String).length = 1 := rfl
  rw [tempPathFor, String.length_append, String.length_append,
    String.length_append, String.length_append, h5, h1] at h2
  omega

/-- C5 (counterexample): a `set` on the session binding store persists by
writing the versioned document *directly* to the bindings file — its
file-system trace is a `mkdir` followed by one `writeFile` on the final
path, and contains no rename (hence no write-temp-then-rename step), at
the concrete input `set("ses_abc", 1)` on an empty store. -/
theorem C5_counterexample :
    (SessionBindingStore.set "/p/f.json" [] "ses_abc" 1).2 =
      [FsOp.mkdirRecursive "/p",
       FsOp.writeFile "/p/f.json" (persistedDoc [("ses_abc", 1)])] ∧
    ((SessionBindingStore.set "/p/f.json" [] "ses_abc" 1).2.all
      fun op => !op.isRename) = true :=
  ⟨rfl, rfl⟩

/-- C5 (amended): every persistence write of the session binding store
(`saveToDisk`, reached from both `set` and `delete`) is a direct
`writeFileSync` of the versioned document to the bindings file — make the
parent directory, then one write to the final path, no temp file and no
rename.  The write-temp-then-rename discipline is implemented by
`writeJsonSecure` in `secure-file.ts` (shown below: it writes to a
distinct temp path and renames it into place), but the session binding
store does not call it. -/
theorem C5_amended (filePath : String) (m : Bindings) (k : String) (v : ℚ)
    (data : JsonVal) (pid nowMs : Nat) :
    SessionBindingStore.saveToDisk filePath m =
      [FsOp.mkdirRecursive (dirname filePath),
       FsOp.writeFile filePath (persistedDoc m)] ∧
    (SessionBindingStore.set filePath m k v).2 =
      SessionBindingStore.saveToDisk filePath (bindingsSet m k v) ∧
    ((SessionBindingStore.saveToDisk filePath m).all fun op => !op.isRename) = true ∧
    writeJsonSecure filePath data pid nowMs =
      [FsOp.mkdirRecursive (dirname filePath), FsOp.chmod (dirname filePath) 448,
       FsOp.writeFile (tempPathFor filePath pid nowMs) data,
       FsOp.chmod (tempPathFor filePath pid nowMs) 384,
       FsOp.rename (tempPathFor filePath pid nowMs) filePath,
       FsOp.chmod filePath 384] ∧
    tempPathFor filePath pid nowMs ≠ filePath :=
  ⟨rfl, rfl, rfl, rfl, tempPathFor_ne filePath pid nowMs⟩

/-- C7 (counterexample): the round trip fails for the empty session key.
`set("", 0)` stores the binding and persists it, but `loadFromDisk` skips
empty keys (`if (!sessionKey) continue`), so a fresh store loaded from
the same file yields `undefined`, not `0`. -/
theorem C7_counterexample :
    ¬ (bindingsGet
        (loadFromDisk []
          (persistState (SessionBindingStore.set "/p/f.json" [] "" 0).1)) ""
      = some 0) := by
  decide

/-- C7 (amended): for every session key `s ≠ ""` and non-negative integer
index `K`, on a store whose keys are duplicate-free (as every store built
through the class API is): `set(s, K)` followed by loading a fresh store
from the persisted file yields `get(s) = K`, and `set(s, K)` then
`delete(s)` followed by a fresh load yields `get(s) = undefined`. -/
theorem C7_amended (filePath : String) (m : Bindings) (s : String) (K : Nat)
    (hs : s ≠ "") (hnd : (m.map Prod.fst).Nodup) :
    bindingsGet
        (loadFromDisk []
          (persistState (SessionBindingStore.set filePath m s (K : ℚ)).1)) s
      = some (K : ℚ) ∧
    bindingsGet
        (loadFromDisk []
          (persistState
            (SessionBindingStore.del filePath
              (SessionBindingStore.set filePath m s (K : ℚ)).1 s).1)) s
      = none := by
  have hset1 : (SessionBindingStore.set filePath m s (K : ℚ)).1 = bindingsSet m s (K : ℚ) := rfl
  have hndset : ((bindingsSet m s (K : ℚ)).map Prod.fst).Nodup :=
    nodup_keys_bindingsSet m s _ hnd
  constructor
  · rw [hset1, loadFromDisk_persistState]
    rw [bindingsGet_load_fold _ s hs hndset [] rfl]
    simp [bindingsGet_set_self]
  · have hhas : bindingsHas (bindingsSet m s (K : ℚ)) s = true :=
      bindingsHas_of_get _ _ _ (bindingsGet_set_self m s _)
    have hdel1 : (SessionBindingStore.del filePath
        (SessionBindingStore.set filePath m s (K : ℚ)).1 s).1 =
        bindingsDelete (bindingsSet m s (K : ℚ)) s := by
      rw [hset1]
      simp [SessionBindingStore.del, hhas]
    rw [hdel1, loadFromDisk_persistState]
    rw [bindingsGet_load_fold _ s hs
      (nodup_keys_bindingsDelete _ s hndset) [] rfl]
    simp [bindingsGet_delete_self]

/-- C7 (witness): the amended round trip at the concrete inputs
`s = "ses_abc"`, `K = 1` on an empty store. -/
theorem C7_witness :
    (("ses_abc" : String) ≠ "" ∧ ((([] : Bindings)).map Prod.fst).Nodup) ∧
    (bindingsGet
        (loadFromDisk []
          (persistState (SessionBindingStore.set "/p/f.json" [] "ses_abc" (1 : Nat)).1)) "ses_abc"
      = some ((1 : Nat) : ℚ) ∧
    bindingsGet
        (loadFromDisk []
          (persistState
            (SessionBindingStore.del "/p/f.json"
              (SessionBindingStore.set "/p/f.json" [] "ses_abc" (1 : Nat)).1 "ses_abc").1)) "ses_abc"
      = none) :=
  ⟨⟨by decide, by decide⟩,
    C7_amended "/p/f.json" [] "ses_abc" 1 (by decide) (by decide)⟩

/-- C8 (counterexample): a persisted document whose `bindings` field is
the JSON array `[3]` is not a valid bindings object, yet `loadFromDisk`
does not leave the mapping empty: the array passes the JavaScript
`typeof`-object check and its entries load under index keys, producing
the binding `"0" ↦ 3`. -/
theorem C8_counterexample :
    loadFromDisk []
        (.doc (.jobj (.cons "bindings" (.jarr (.cons (.jnum 3) .nil)) .nil)))
      = [("0", (3 : ℚ))] ∧
    loadFromDisk []
        (.doc (.jobj (.cons "bindings" (.jarr (.cons (.jnum 3) .nil)) .nil)))
      ≠ ([] : Bindings) := by
  refine ⟨rfl, ?_⟩
  decide

/-- C8 (amended): `loadFromDisk` always returns normally (it is total in
this embedding, with the caught `JSON.parse` failure as the `notJson`
case), and the mapping is left untouched — empty for a fresh store — when
the file is missing, is not JSON, or holds a document whose `bindings`
field is absent, falsy, or not of JavaScript object type.  A JSON *array*
under `bindings`, however, passes the `typeof` object check and loads its
eligible entries under index-string keys. -/
theorem C8_amended :
    (∀ init, loadFromDisk init .missing = init) ∧
    (∀ init raw, loadFromDisk init (.notJson raw) = init) ∧
    (∀ init v, v.getProp "bindings" = none → loadFromDisk init (.doc v) = init) ∧
    (∀ init v b, v.getProp "bindings" = some b →
      (b.truthy && b.typeofIsObject) = false → loadFromDisk init (.doc v) = init) ∧
    loadFromDisk []
        (.doc (.jobj (.cons "bindings" (.jarr (.cons (.jnum 3) .nil)) .nil)))
      = [("0", (3 : ℚ))] := by
  refine ⟨fun init => rfl, fun init raw => rfl, ?_, ?_, rfl⟩
  · intro init v h
    simp [loadFromDisk, h]
  · intro init v b h hb
    simp [loadFromDisk, h, hb]

/-- C8 (witness): the amended statement applied at the concrete document
`"x"` (a JSON string has no `bindings` field) and at `{bindings: null}`
(falsy bindings value). -/
theorem C8_witness :
    ((JsonVal.jstr "x").getProp "bindings" = none ∧
      (JsonVal.jobj (.cons "bindings" .jnull .nil)).getProp "bindings" = some .jnull ∧
      ((JsonVal.jnull).truthy && (JsonVal.jnull).typeofIsObject) = false) ∧
    loadFromDisk [] (.doc (.jstr "x")) = [] ∧
    loadFromDisk [] (.doc (.jobj (.cons "bindings" .jnull .nil))) = [] :=
  ⟨⟨rfl, rfl, rfl⟩,
    C8_amended.2.2.1 [] (.jstr "x") rfl,
    C8_amended.2.2.2.1 [] _ .jnull rfl rfl⟩

mutual
theorem sanitizeLogData_maskSecrets : ∀ v : JsonVal,
    sanitizeLogData (maskSecrets v) = sanitizeLogData v
  | .jnull => rfl
  | .jbool _ => rfl
  | .jnum _ => rfl
  | .jstr _ => rfl
  | .jarr a => by
      simp [maskSecrets, sanitizeLogData, sanitizeArr_maskSecretsArr a]
  | .jobj o => by
      simp [maskSecrets, sanitizeLogData, sanitizeObj_maskSecretsObj o]

theorem sanitizeArr_maskSecretsArr : ∀ a : JsonArr,
    sanitizeArr (maskSecretsArr a) = sanitizeArr a
  | .nil => rfl
  | .cons h t => by
      simp [maskSecretsArr, sanitizeArr, sanitizeLogData_maskSecrets h,
        sanitizeArr_maskSecretsArr t]

theorem sanitizeObj_maskSecretsObj : ∀ o : JsonObj,
    sanitizeObj (maskSecretsObj o) = sanitizeObj o
  | .nil => rfl
  | .cons k v tl => by
      by_cases homit : matchesOmittedKey k
      · simp [maskSecretsObj, sanitizeObj, homit, sanitizeObj_maskSecretsObj tl]
      · by_cases hsens : matchesSensitiveKey k
        · simp [maskSecretsObj, sanitizeObj, homit, hsens,
            sanitizeObj_maskSecretsObj tl]
        · simp [maskSecretsObj, sanitizeObj, homit, hsens,
            sanitizeLogData_maskSecrets v, sanitizeObj_maskSecretsObj tl]
end

/-- C10: log sanitisation is insensitive to secret values.  Two inputs
that differ only in the values stored under sensitive keys (the
`SENSITIVE_KEY_PATTERN` matches) or under `body`/`fullContent` — i.e.
whose canonical masks coincide — sanitise to identical outputs; in the
output of an object every `body`/`fullContent` key maps to the constant
`"[OMITTED]"`, every other sensitive key to `"[REDACTED]"`, and every
remaining entry keeps its key with the sanitiser applied recursively to
its value. -/
theorem C10_sanitize_secret_independent :
    (∀ x y : JsonVal, maskSecrets x = maskSecrets y →
      sanitizeLogData x = sanitizeLogData y) ∧
    (∀ o : JsonObj, sanitizeLogData (.jobj o) = .jobj (sanitizeObj o)) ∧
    (∀ (k : String) (v : JsonVal) (tl : JsonObj),
      sanitizeObj (.cons k v tl) =
        .cons k
          (if matchesOmittedKey k then .jstr "[OMITTED]"
           else if matchesSensitiveKey k then .jstr "[REDACTED]"
           else sanitizeLogData v)
          (sanitizeObj tl)) := by
  refine ⟨?_, fun o => rfl, ?_⟩
  · intro x y hmask
    calc sanitizeLogData x
        = sanitizeLogData (maskSecrets x) := (sanitizeLogData_maskSecrets x).symm
      _ = sanitizeLogData (maskSecrets y) := by rw [hmask]
      _ = sanitizeLogData y := sanitizeLogData_maskSecrets y
  · intro k v tl
    by_cases homit : matchesOmittedKey k
    · simp [sanitizeObj, homit]
    · by_cases hsens : matchesSensitiveKey k <;> simp [sanitizeObj, homit, hsens]

/-- C10 (witness): two log records differing only in the `password`
value have identical masks and hence identical sanitised output. -/
theorem C10_witness :
    maskSecrets (.jobj (.cons "password" (.jstr "hunter2")
        (.cons "user" (.jstr "me") .nil))) =
      maskSecrets (.jobj (.cons "password" (.jstr "other")
        (.cons "user" (.jstr "me") .nil))) ∧
    sanitizeLogData (.jobj (.cons "password" (.jstr "hunter2")
        (.cons "user" (.jstr "me") .nil))) =
      sanitizeLogData (.jobj (.cons "password" (.jstr "other")
        (.cons "user" (.jstr "me") .nil))) :=
  ⟨rfl, C10_sanitize_secret_independent.1 _ _ rfl⟩

/-- C9: stream-to-document conversion.  On the complete stream
`data: {"type":"response.done","response":{"id":"r1"}}` followed by a
blank line, `convertSseToJson` returns the JSON document `{"id":"r1"}`
as the body with the content-type header set to a JSON media type; on a
consumed stream with no completion event (`parseSseStream` finds
nothing) it returns the raw concatenated text with status, statusText
and headers preserved. -/
theorem C9_convertSseToJson :
    (∀ (status : Nat) (statusText : String) (headers : List (String × String)),
      convertSseToJson
          "data: \x7b\"type\":\"response.done\",\"response\":\x7b\"id\":\"r1\"\x7d\x7d\n\n"
          status statusText headers =
        ⟨status, statusText,
          headersSet headers "content-type" "application/json; charset=utf-8",
          "\x7b\"id\":\"r1\"\x7d"⟩) ∧
    (∀ (fullText : String) (status : Nat) (statusText : String)
        (headers : List (String × String)),
      parseSseStream fullText = none →
      convertSseToJson fullText status statusText headers =
        ⟨status, statusText, headers, fullText⟩) := by
  constructor
  · intro status statusText headers
    have hp : parseSseStream
        "data: \x7b\"type\":\"response.done\",\"response\":\x7b\"id\":\"r1\"\x7d\x7d\n\n" =
        some (.jobj (.cons "id" (.jstr "r1") .nil)) := rfl
    simp [convertSseToJson, hp]
    rfl
  · intro fullText status statusText headers h
    simp [convertSseToJson, h]

/-- C9 (witness): the pass-through branch at a concrete stream carrying
no completion event. -/
theorem C9_witness :
    parseSseStream "data: \x7b\"type\":\"other\"\x7d\n\n" = none ∧
    convertSseToJson "data: \x7b\"type\":\"other\"\x7d\n\n" 500 "ERR" [("a", "b")] =
      ⟨500, "ERR", [("a", "b")], "data: \x7b\"type\":\"other\"\x7d\n\n"⟩ :=
  ⟨rfl, C9_convertSseToJson.2 _ _ _ _ rfl⟩

theorem executeRequest_all429 (env : DispatchEnv) (resp : Upstream)
    (hfetch : ∀ i m, env.fetchFn i m = resp) (hstatus : resp.status = 429)
    (hurl : validateCodexBackendUrl (rewriteUrlForCodex env.url) = true)
    (body : Option JsonVal) :
    ∀ (fuel : Nat) (st : MgrState) (account : Account) (retryCount : Nat)
      (tried : List Nat),
      account.tokenValid = true → account.hasAccountId = true →
      (∀ a ∈ st.accounts, a.tokenValid = true ∧ a.hasAccountId = true) →
      retryCount < st.accounts.length →
      st.accounts.length - retryCount ≤ fuel →
      ∃ r, executeRequest env fuel st account body retryCount tried = some r ∧
        r.trace.length ≤ st.accounts.length - retryCount ∧
        r.resp = .errorResponse resp := by
  intro fuel
  induction fuel with
  | zero => intro st account retryCount tried _ _ _ hrc hfuel; omega
  | succ fuel ih =>
      intro st account retryCount tried htok hacc hall hrc hfuel
      have hhe : handleErrorResponse resp = resp := by
        simp [handleErrorResponse, hstatus]
      have hok2 : okStatus 429 = false := rfl
      simp only [executeRequest, htok, hurl, hacc, hfetch, hstatus, hok2, hhe,
        Bool.false_eq_true, if_false, reduceCtorEq, ite_false, ite_true, if_true]
      simp only [show ∀ ms mo, (markRateLimited st account ms mo).accounts = st.accounts
        from fun _ _ => rfl]
      set mo := bodyModel (body.getD (JsonVal.jobj JsonObj.nil)) with hmo
      set tried2 := insertTried account.index tried with htried2
      set st2 := markRateLimited st account (computeRetryAfterMs resp env.now) mo with hst2
      have hacc2 : st2.accounts = st.accounts := rfl
      by_cases hlt : retryCount + 1 < st.accounts.length
      · rw [if_pos hlt]
        cases hsel : getNextAvailableAccountExcluding st2 tried2 mo with
        | none =>
            dsimp only
            refine ⟨_, rfl, ?_, rfl⟩
            simp
            omega
        | some next =>
            dsimp only
            by_cases hne : next.index ≠ account.index
            · rw [if_pos hne]
              have hmem : next ∈ st.accounts := by
                have := List.mem_of_find?_eq_some hsel
                rwa [hacc2] at this
              obtain ⟨hnt, hna⟩ := hall next hmem
              have hall2 : ∀ a ∈ st2.accounts, a.tokenValid = true ∧ a.hasAccountId = true := by
                rw [hacc2]; exact hall
              obtain ⟨r, hr, hlen, hresp⟩ :=
                ih st2 next (retryCount + 1) tried2 hnt hna hall2 (by rw [hacc2]; exact hlt)
                  (by rw [hacc2]; omega)
              refine ⟨_, by rw [hr]; rfl, ?_, ?_⟩
              · simp [prependAttempt]
                rw [hacc2] at hlen
                omega
              · simpa [prependAttempt] using hresp
            · rw [if_neg hne]
              refine ⟨_, rfl, ?_, rfl⟩
              simp
              omega
      · rw [if_neg hlt]
        refine ⟨_, rfl, ?_, rfl⟩
        simp
        omega

/-- C1: for every pool of `N ≥ 1` accounts, when every physical attempt
is answered with a 429 response, the dispatch chain started by
`executeRequest` (with `retryCount = 0` and an empty tried set)
terminates — any fuel of at least `N` suffices, so the recursion depth is
bounded — after at most `N` physical attempts, and the terminal response
is the upstream rate-limited response. -/
theorem C1_all_rate_limited_terminates (env : DispatchEnv) (resp : Upstream)
    (st : MgrState) (account : Account) (body : Option JsonVal) (fuel : Nat)
    (hfetch : ∀ i m, env.fetchFn i m = resp) (hstatus : resp.status = 429)
    (hurl : validateCodexBackendUrl (rewriteUrlForCodex env.url) = true)
    (hall : ∀ a ∈ st.accounts, a.tokenValid = true ∧ a.hasAccountId = true)
    (hmem : account ∈ st.accounts)
    (hfuel : st.accounts.length ≤ fuel) :
    ∃ r, executeRequest env fuel st account body 0 [] = some r ∧
      r.trace.length ≤ st.accounts.length ∧
      r.resp = .errorResponse resp := by
  have hN : 0 < st.accounts.length := List.length_pos_of_mem hmem
  have h := executeRequest_all429 env resp hfetch hstatus hurl body fuel st account 0 []
    (hall account hmem).1 (hall account hmem).2 hall (by omega) (by omega)
  simpa using h

/-- C1 (witness): two accounts, every attempt 429: the chain finishes
within fuel 2, makes at most 2 attempts and surfaces the 429. -/
theorem C1_witness :
    ((∀ i m, allRateLimitedEnv.fetchFn i m = rateLimited429) ∧
      rateLimited429.status = 429 ∧
      validateCodexBackendUrl (rewriteUrlForCodex allRateLimitedEnv.url) = true ∧
      (∀ a ∈ twoAccountPool.accounts, a.tokenValid = true ∧ a.hasAccountId = true) ∧
      demoAccount 0 ∈ twoAccountPool.accounts ∧
      twoAccountPool.accounts.length ≤ 2) ∧
    (∃ r, executeRequest allRateLimitedEnv 2 twoAccountPool (demoAccount 0)
        (some bodyModelX) 0 [] = some r ∧
      r.trace.length ≤ twoAccountPool.accounts.length ∧
      r.resp = .errorResponse rateLimited429) :=
  ⟨⟨fun _ _ => rfl, rfl, rfl, by decide, by decide, by decide⟩,
    C1_all_rate_limited_terminates allRateLimitedEnv rateLimited429 twoAccountPool
      (demoAccount 0) (some bodyModelX) 2 (fun _ _ => rfl) rfl rfl (by decide)
      (by decide) (by decide)⟩

/-- C2 (counterexample): in a one-account pool whose account is cooling
down for the fallback model `Y`, a request for `X` gets the
model-unsupported 400, no untried account remains, and a fallback `Y` is
configured — yet the reissued fallback-model attempt runs with
`retryCount = 1`, not 0: when `getNextAvailableAccount` finds no account
for the fallback model, the source recurses on the current account with
`retryCount + 1` (src/index.ts 587), contradicting the claim's
"retryCount reset to 0". -/
theorem C2_counterexample :
    (executeRequest modelFallbackEnv 5 oneAccountRateLimitedY (demoAccount 0)
        (some bodyModelX) 0 []).map (fun r => (r.trace, r.resp.statusOf)) =
      some ([⟨0, some "X", 0⟩, ⟨0, some "Y", 1⟩], 200) := by
  decide

/-- C2 (amended): when an attempt returns a 400 response whose body
carries the model-unsupported signature for the requested model `M`:
(a) while an untried available account remains, the engine recurses on it
with the *same* `retryCount`; (b) once no untried account remains and a
fallback model is configured for `M`, it reissues the request with the
fallback substituted into the body and an empty tried-index set — with
`retryCount` reset to 0 when an account is available for the fallback
model, and on the *current* account with `retryCount + 1` when none is —
returning whatever the fallback-model attempt yields. -/
theorem C2_amended (env : DispatchEnv) (fuel : Nat) (st : MgrState) (account : Account)
    (body : Option JsonVal) (retryCount : Nat) (tried : List Nat)
    (M : String) (resp : Upstream) (eb : JsonVal) (d : String)
    (htok : account.tokenValid = true) (hacc : account.hasAccountId = true)
    (hurl : validateCodexBackendUrl (rewriteUrlForCodex env.url) = true)
    (hM : bodyModel (body.getD (.jobj .nil)) = some M) (hMne : M ≠ "")
    (hfetch : env.fetchFn account.index (some M) = resp)
    (hstatus : resp.status = 400)
    (hbody : resp.bodyJson = some eb)
    (hdetail : extract400Detail eb = some d)
    (hsig : isModelUnsupportedDetail d = true) :
    (∀ next,
      getNextAvailableAccountExcluding st (insertTried account.index tried) (some M) = some next →
      executeRequest env (fuel + 1) st account body retryCount tried =
        (executeRequest env fuel st next body retryCount
            (insertTried account.index tried)).map
          (prependAttempt ⟨account.index, some M, retryCount⟩)) ∧
    (∀ fb,
      getNextAvailableAccountExcluding st (insertTried account.index tried) (some M) = none →
      env.fallbacks M = some fb →
      (∀ fbAcct, getNextAvailableAccount st (some fb) = some fbAcct →
        executeRequest env (fuel + 1) st account body retryCount tried =
          (executeRequest env fuel st fbAcct
              (some (jsSetProp (body.getD (.jobj .nil)) "model" (.jstr fb))) 0 []).map
            (prependAttempt ⟨account.index, some M, retryCount⟩)) ∧
      (getNextAvailableAccount st (some fb) = none →
        executeRequest env (fuel + 1) st account body retryCount tried =
          (executeRequest env fuel st account
              (some (jsSetProp (body.getD (.jobj .nil)) "model" (.jstr fb)))
              (retryCount + 1) []).map
            (prependAttempt ⟨account.index, some M, retryCount⟩))) := by
  have n429 : ((400 : Nat) = 429) = False := eq_false (by decide)
  have n401 : ((400 : Nat) = 401) = False := eq_false (by decide)
  have n400 : ((400 : Nat) = 400) = True := eq_true rfl
  have nM : (M = "") = False := eq_false hMne
  refine ⟨?_, ?_⟩
  · intro next hsel
    simp only [executeRequest, htok, hurl, hacc, hM, hfetch, hstatus, hbody, hdetail, hsig,
      n429, n401, n400, nM, Option.getD_some, Bool.false_eq_true, if_false, reduceCtorEq,
      ite_false, ite_true, if_true, hsel]
  · intro fb hsel hfb
    refine ⟨?_, ?_⟩
    · intro fbAcct hfba
      simp only [executeRequest, htok, hurl, hacc, hM, hfetch, hstatus, hbody, hdetail, hsig,
        n429, n401, n400, nM, Option.getD_some, Bool.false_eq_true, if_false, reduceCtorEq,
        ite_false, ite_true, if_true, hsel, hfb, hfba]
    · intro hfba
      simp only [executeRequest, htok, hurl, hacc, hM, hfetch, hstatus, hbody, hdetail, hsig,
        n429, n401, n400, nM, Option.getD_some, Bool.false_eq_true, if_false, reduceCtorEq,
        ite_false, ite_true, if_true, hsel, hfb, hfba]

/-- C2 (witness): the amended branch behaviour instantiated at the
two-account pool with both accounts rejecting model `X` and fallback
`Y` configured. -/
theorem C2_witness :
    ((demoAccount 0).tokenValid = true ∧ (demoAccount 0).hasAccountId = true ∧
      validateCodexBackendUrl (rewriteUrlForCodex modelFallbackEnv.url) = true ∧
      bodyModel ((some bodyModelX).getD (.jobj .nil)) = some "X" ∧ ("X" : String) ≠ "" ∧
      modelFallbackEnv.fetchFn (demoAccount 0).index (some "X") = modelUnsupported400 ∧
      modelUnsupported400.status = 400 ∧
      modelUnsupported400.bodyJson =
        some (.jobj (.cons "detail"
          (.jstr "The model is not supported on your account.") .nil)) ∧
      extract400Detail (.jobj (.cons "detail"
          (.jstr "The model is not supported on your account.") .nil)) =
        some "The model is not supported on your account." ∧
      isModelUnsupportedDetail "The model is not supported on your account." = true) ∧
    ((∀ next,
      getNextAvailableAccountExcluding twoAccountPool
          (insertTried (demoAccount 0).index []) (some "X") = some next →
      executeRequest modelFallbackEnv (4 + 1) twoAccountPool (demoAccount 0)
          (some bodyModelX) 0 [] =
        (executeRequest modelFallbackEnv 4 twoAccountPool next (some bodyModelX) 0
            (insertTried (demoAccount 0).index [])).map
          (prependAttempt ⟨(demoAccount 0).index, some "X", 0⟩)) ∧
    (∀ fb,
      getNextAvailableAccountExcluding twoAccountPool
          (insertTried (demoAccount 0).index []) (some "X") = none →
      modelFallbackEnv.fallbacks "X" = some fb →
      (∀ fbAcct, getNextAvailableAccount twoAccountPool (some fb) = some fbAcct →
        executeRequest modelFallbackEnv (4 + 1) twoAccountPool (demoAccount 0)
            (some bodyModelX) 0 [] =
          (executeRequest modelFallbackEnv 4 twoAccountPool fbAcct
              (some (jsSetProp ((some bodyModelX).getD (.jobj .nil)) "model" (.jstr fb)))
              0 []).map
            (prependAttempt ⟨(demoAccount 0).index, some "X", 0⟩)) ∧
      (getNextAvailableAccount twoAccountPool (some fb) = none →
        executeRequest modelFallbackEnv (4 + 1) twoAccountPool (demoAccount 0)
            (some bodyModelX) 0 [] =
          (executeRequest modelFallbackEnv 4 twoAccountPool (demoAccount 0)
              (some (jsSetProp ((some bodyModelX).getD (.jobj .nil)) "model" (.jstr fb)))
              (0 + 1) []).map
            (prependAttempt ⟨(demoAccount 0).index, some "X", 0⟩)))) :=
  ⟨⟨rfl, rfl, rfl, rfl, by decide, rfl, rfl, rfl, rfl, rfl⟩,
    C2_amended modelFallbackEnv 4 twoAccountPool (demoAccount 0) (some bodyModelX) 0 []
      "X" modelUnsupported400
      (.jobj (.cons "detail" (.jstr "The model is not supported on your account.") .nil))
      "The model is not supported on your account."
      rfl rfl rfl rfl (by decide) rfl rfl rfl rfl rfl⟩

/-- C3: the 429 cool-down is computed with this precedence: a non-empty
`Retry-After` header parsing to the integer `n` gives `n * 1000` ms;
with no header, a truthy `resets_at` (from `error.details` or the body
top level) gives its date value minus now; otherwise — no body JSON, no
reset field, or a falsy one — the fixed 60000 ms fallback.  In the
dispatch engine the computed duration is recorded through
`markRateLimited` scoped to the requested model (shown on the
pool-exhausted 429 attempt, whose terminal state carries exactly that
mark). -/
theorem C3_cooldown_computation :
    (∀ (resp : Upstream) (now : Int) (s : String) (n : Int),
      resp.retryAfter = some s → s ≠ "" → jsParseInt s = some n →
      computeRetryAfterMs resp now = .fin (n * 1000)) ∧
    (∀ (resp : Upstream) (now : Int) (b rt : JsonVal),
      resp.retryAfter = none → resp.bodyJson = some b →
      resetTimeOf b = some rt → rt.truthy = true →
      computeRetryAfterMs resp now = (jsDateGetTime rt).subInt now) ∧
    (∀ (resp : Upstream) (now : Int),
      resp.retryAfter = none → resp.bodyJson = none →
      computeRetryAfterMs resp now = .fin 60000) ∧
    (∀ (resp : Upstream) (now : Int) (b : JsonVal),
      resp.retryAfter = none → resp.bodyJson = some b → resetTimeOf b = none →
      computeRetryAfterMs resp now = .fin 60000) ∧
    (∀ (resp : Upstream) (now : Int) (b rt : JsonVal),
      resp.retryAfter = none → resp.bodyJson = some b →
      resetTimeOf b = some rt → rt.truthy = false →
      computeRetryAfterMs resp now = .fin 60000) ∧
    (∀ (env : DispatchEnv) (st : MgrState) (account : Account)
        (body : Option JsonVal) (retryCount : Nat) (tried : List Nat)
        (fuel : Nat) (resp : Upstream),
      account.tokenValid = true → account.hasAccountId = true →
      validateCodexBackendUrl (rewriteUrlForCodex env.url) = true →
      env.fetchFn account.index (bodyModel (body.getD (.jobj .nil))) = resp →
      resp.status = 429 →
      st.accounts.length ≤ retryCount + 1 →
      executeRequest env (fuel + 1) st account body retryCount tried =
        some ⟨.errorResponse (handleErrorResponse resp),
          markRateLimited st account (computeRetryAfterMs resp env.now)
            (bodyModel (body.getD (.jobj .nil))),
          [⟨account.index, bodyModel (body.getD (.jobj .nil)), retryCount⟩]⟩) := by
  refine ⟨?_, ?_, ?_, ?_, ?_, ?_⟩
  · intro resp now s n h1 h2 h3
    simp [computeRetryAfterMs, h1, h2, h3]
  · intro resp now b rt h1 h2 h3 h4
    simp [computeRetryAfterMs, bodyResetMs, h1, h2, h3, h4]
  · intro resp now h1 h2
    simp [computeRetryAfterMs, bodyResetMs, h1, h2]
  · intro resp now b h1 h2 h3
    simp [computeRetryAfterMs, bodyResetMs, h1, h2, h3]
  · intro resp now b rt h1 h2 h3 h4
    simp [computeRetryAfterMs, bodyResetMs, h1, h2, h3, h4]
  · intro env st account body retryCount tried fuel resp htok hacc hurl hfetch hstatus hlen
    have hok2 : okStatus 429 = false := rfl
    have hnlt : (retryCount + 1 < st.accounts.length) = False := eq_false (by omega)
    simp only [executeRequest, htok, hurl, hacc, hfetch, hstatus, hok2,
      Bool.false_eq_true, if_false, reduceCtorEq, ite_false, ite_true, if_true]
    simp only [show ∀ ms mo, (markRateLimited st account ms mo).accounts = st.accounts
      from fun _ _ => rfl, hnlt, if_false]

/-- C3 (witness): the header branch at `Retry-After: 120`, and the
scoped `markRateLimited` record on a one-account pool answered with a
body `resets_at`. -/
theorem C3_witness :
    (rateLimited429.retryAfter = some "120" ∧ ("120" : String) ≠ "" ∧
      jsParseInt "120" = some 120 ∧
      computeRetryAfterMs rateLimited429 0 = .fin (120 * 1000)) ∧
    ((demoAccount 0).tokenValid = true ∧ (demoAccount 0).hasAccountId = true ∧
      validateCodexBackendUrl (rewriteUrlForCodex resetsAtEnv.url) = true ∧
      resetsAtEnv.fetchFn (demoAccount 0).index
          (bodyModel ((some bodyModelX).getD (.jobj .nil))) = resetsAt429 ∧
      resetsAt429.status = 429 ∧ oneAccountPool.accounts.length ≤ 0 + 1 ∧
      executeRequest resetsAtEnv (4 + 1) oneAccountPool (demoAccount 0)
          (some bodyModelX) 0 [] =
        some ⟨.errorResponse (handleErrorResponse resetsAt429),
          markRateLimited oneAccountPool (demoAccount 0)
            (computeRetryAfterMs resetsAt429 resetsAtEnv.now)
            (bodyModel ((some bodyModelX).getD (.jobj .nil))),
          [⟨(demoAccount 0).index, bodyModel ((some bodyModelX).getD (.jobj .nil)), 0⟩]⟩) :=
  ⟨⟨rfl, by decide, rfl,
      C3_cooldown_computation.1 rateLimited429 0 "120" 120 rfl (by decide) rfl⟩,
    ⟨rfl, rfl, rfl, rfl, rfl, by decide,
      C3_cooldown_computation.2.2.2.2.2 resetsAtEnv oneAccountPool (demoAccount 0)
        (some bodyModelX) 0 [] 4 resetsAt429 rfl rfl rfl rfl rfl (by decide)⟩⟩

/-- C4 (counterexample): the claim as stated fails when the executing
account's token is invalid: the token-validity check precedes URL
validation, so with a single invalid-token account and an untrusted URL
the request terminates with the 401 token-refresh failure, not the
claimed 400 invalid-backend-URL response. -/
theorem C4_counterexample :
    (executeRequest invalidUrlEnv 5 ⟨[⟨0, false, true⟩], [], []⟩ ⟨0, false, true⟩
        (some bodyModelX) 0 []).map (fun r => r.resp.statusOf) = some 401 ∧
    (401 : Nat) ≠ 400 := by
  refine ⟨by decide, by decide⟩

/-- C4 (amended): when the executing account's token is valid, a request
whose rewritten URL fails backend validation terminates immediately with
the 400 invalid-backend-URL response: no physical attempt is made (empty
trace, nothing dispatched upstream), no other account is tried, and the
manager state is untouched.  (The token check runs first, so an
invalid-token account switches or fails with 401 before the URL is ever
validated.) -/
theorem C4_amended (env : DispatchEnv) (fuel : Nat) (st : MgrState) (account : Account)
    (body : Option JsonVal) (retryCount : Nat) (tried : List Nat)
    (htok : account.tokenValid = true)
    (hurl : validateCodexBackendUrl (rewriteUrlForCodex env.url) = false) :
    executeRequest env (fuel + 1) st account body retryCount tried =
      some ⟨.invalidBackendUrl, st, []⟩ ∧
    DispatchResp.statusOf .invalidBackendUrl = 400 := by
  refine ⟨?_, rfl⟩
  simp only [executeRequest, htok, hurl, Bool.false_eq_true, if_false, reduceCtorEq,
    ite_false, ite_true, if_true]

/-- C4 (witness): the amended statement at a valid-token account behind
the `http` (untrusted) URL. -/
theorem C4_witness :
    ((demoAccount 0).tokenValid = true ∧
      validateCodexBackendUrl (rewriteUrlForCodex invalidUrlEnv.url) = false) ∧
    (executeRequest invalidUrlEnv (4 + 1) twoAccountPool (demoAccount 0)
        (some bodyModelX) 0 [] = some ⟨.invalidBackendUrl, twoAccountPool, []⟩ ∧
      DispatchResp.statusOf .invalidBackendUrl = 400) :=
  ⟨⟨rfl, rfl⟩,
    C4_amended invalidUrlEnv 4 twoAccountPool (demoAccount 0) (some bodyModelX) 0 [] rfl rfl⟩

/-- C6: session resolution.  With no session key (the key is falsy) the
resolver delegates to plain selection and leaves the binding map and
disk untouched; a key bound to an index that still resolves to a live
account returns that account without changing the binding; a key bound
to a stale index deletes the binding (persisting the deletion) and
proceeds as unbound; when unbound, it asks for a new-session pick,
persists the new binding exactly when an account was found, and returns
the chosen account or null. -/
theorem C6_session_resolution (env : SessionEnv) (filePath : String) (m : Bindings)
    (model : Option String) :
    (getSessionBoundAccount env filePath m none model = (env.selectPlain model, m, [])) ∧
    (∀ k i a, k ≠ "" → bindingsGet m k = some i →
      findAccountByIndex env.accounts i = some a →
      getSessionBoundAccount env filePath m (some k) model = (some a, m, [])) ∧
    (∀ k i, k ≠ "" → bindingsGet m k = some i →
      findAccountByIndex env.accounts i = none →
      getSessionBoundAccount env filePath m (some k) model =
        resolveUnbound env filePath (bindingsDelete m k)
          (SessionBindingStore.saveToDisk filePath (bindingsDelete m k)) k model) ∧
    (∀ k, k ≠ "" → bindingsGet m k = none →
      getSessionBoundAccount env filePath m (some k) model =
        resolveUnbound env filePath m [] k model) ∧
    (∀ k m0 ops0 a, env.selectNewSession model = some a →
      resolveUnbound env filePath m0 ops0 k model =
        (some a, bindingsSet m0 k (a.index : ℚ),
          ops0 ++ SessionBindingStore.saveToDisk filePath
            (bindingsSet m0 k (a.index : ℚ)))) ∧
    (∀ k m0 ops0, env.selectNewSession model = none →
      resolveUnbound env filePath m0 ops0 k model = (none, m0, ops0)) := by
  refine ⟨rfl, ?_, ?_, ?_, ?_, ?_⟩
  · intro k i a hk hget hfind
    simp [getSessionBoundAccount, hk, hget, hfind]
  · intro k i hk hget hfind
    have hhas : bindingsHas m k = true := bindingsHas_of_get m k i hget
    simp [getSessionBoundAccount, hk, hget, hfind, SessionBindingStore.del, hhas]
  · intro k hk hget
    simp [getSessionBoundAccount, hk, hget]
  · intro k m0 ops0 a hsel
    simp [resolveUnbound, hsel, SessionBindingStore.set]
  · intro k m0 ops0 hsel
    simp [resolveUnbound, hsel]

/-- C6 (witness): the live-binding, unbound and new-session-persistence
cases at concrete inputs over a two-account session environment. -/
theorem C6_witness :
    (("ses_a" : String) ≠ "" ∧ bindingsGet [("ses_a", (0 : ℚ))] "ses_a" = some 0 ∧
      findAccountByIndex sessionDemoEnv.accounts 0 = some (demoAccount 0) ∧
      ("ses_b" : String) ≠ "" ∧ bindingsGet [] "ses_b" = none ∧
      sessionDemoEnv.selectNewSession none = some (demoAccount 1)) ∧
    (getSessionBoundAccount sessionDemoEnv "/p" [("ses_a", (0 : ℚ))] (some "ses_a") none =
      (some (demoAccount 0), [("ses_a", (0 : ℚ))], [])) ∧
    (getSessionBoundAccount sessionDemoEnv "/p" [] (some "ses_b") none =
      resolveUnbound sessionDemoEnv "/p" [] [] "ses_b" none) ∧
    (resolveUnbound sessionDemoEnv "/p" [] [] "ses_b" none =
      (some (demoAccount 1), bindingsSet [] "ses_b" ((demoAccount 1).index : ℚ),
        [] ++ SessionBindingStore.saveToDisk "/p"
          (bindingsSet [] "ses_b" ((demoAccount 1).index : ℚ)))) :=
  ⟨⟨by decide, by decide, rfl, by decide, rfl, rfl⟩,
    (C6_session_resolution sessionDemoEnv "/p" [("ses_a", (0 : ℚ))] none).2.1
      "ses_a" 0 (demoAccount 0) (by decide) (by decide) rfl,
    (C6_session_resolution sessionDemoEnv "/p" [] none).2.2.2.1
      "ses_b" (by decide) rfl,
    (C6_session_resolution sessionDemoEnv "/p" [] none).2.2.2.2.1
      "ses_b" [] [] (demoAccount 1) rfl⟩

end MultiAuth
